import Mathlib

/-!
Verification model of the webvy staged pipeline scheduler:
`src/webvy_app/src/app.rs` (ProcessorApp), `src/webvy_app/src/deferred.rs`
(DeferredTask / DeferredGuard / DeferredScope), and the deferred task bodies
of `src/webvy_app/src/processor/configuration.rs`.

The scheduler is embedded as an oracle-driven small-step interleaving
semantics: a `Config` carries the driving thread's control state, the pool of
in-flight background tasks, the outstanding counter, the mpsc channel of
command batches and the world; a `Choice` oracle resolves which thread steps
next, so universally quantified theorems range over every interleaving the
real scheduler can exhibit.
-/

namespace Webvy

/-- A mutation command. `bevy_ecs::system::CommandQueue` contents are opaque
to the scheduler, so each command is abstracted as a marker value, exactly
the way the spec's testable properties describe them. -/
abbrev Cmd := Nat

/-- One `CommandQueue` batch as sent over the deferred channel
(`smol::channel::Sender<CommandQueue>`, deferred.rs line 15). -/
abbrev Batch := List Cmd

/-- The operations a task body can perform through its `DeferredScope`
(deferred.rs lines 100-126): `send` posts one `CommandQueue` on the channel
(`DeferredScope::send`, lines 107-111), and `spawnUn` is
`DeferredScope::spawn` / `DeferredScope::spawn_local` (lines 113-125), which
hand the new future straight to `IoTaskPool::get().spawn(..)` without
creating any `DeferredGuard`.  The spawned body again holds a clone of the
same scope, so it is again a list of these operations. -/
inductive TAct where
  | send (b : Batch)
  | spawnUn (body : List TAct)

/-- An in-flight background task on the IO pool.  A `counted` job was
created by `DeferredTask::scoped_task` / `scoped_task_local`
(deferred.rs lines 33-65) and owns a `DeferredGuard`; `id` identifies the
guard and the `DeferredScope` created alongside it.  An `uncounted` job was
created by `DeferredScope::spawn` / `spawn_local` and owns no guard; `scope`
is the id of the scope whose clone it captured. -/
inductive Job where
  | counted (id : Nat) (rem : List TAct)
  | uncounted (scope : Nat) (rem : List TAct)

/-- The id of the guard a job owns, if any. -/
def Job.countedId : Job → Option Nat
  | .counted id _ => some id
  | .uncounted _ _ => none

/-- Ids of the guards currently held by pool jobs (the outstanding tasks). -/
def countedIds (pool : List Job) : List Nat :=
  pool.filterMap Job.countedId

/-- The five schedule labels of app.rs lines 22-35. -/
inductive ScheduleLabel where
  | Preload
  | Load
  | Process
  | PostProcess
  | Write
deriving DecidableEq

/-- The labels in the order `init_schedules` (app.rs lines 57-99) pushes the
schedules into the label list and the world. -/
def init_schedules : List ScheduleLabel :=
  [.Preload, .Load, .Process, .PostProcess, .Write]

/-- Observable atomic events of a run.  `incr`/`decr` are the
`fetch_add`/`fetch_sub` on `DeferredTask::waiting` (deferred.rs lines 79 and
87-88), `notify` is `finished.notify(1)` (line 90), `sendEv fromCounted s b`
is `DeferredScope::send` of batch `b` through scope `s` (`fromCounted` tells
whether the sender is the counted task's own body or an uncounted nested
task holding a scope clone), `applyEv` is `deferred_queue.apply(&mut
self.world)` (app.rs line 178), and `fastPath` marks a barrier that read the
counter as zero and skipped the whole `if deferred_actions > 0` block
(app.rs line 148). -/
inductive Ev where
  | incr (id : Nat)
  | decr (id : Nat)
  | notify (id : Nat)
  | spawnCounted (id : Nat)
  | spawnUncounted (scope : Nat)
  | sendEv (fromCounted : Bool) (scope : Nat) (b : Batch)
  | phaseStart (lbl : ScheduleLabel)
  | phaseEnd (lbl : ScheduleLabel)
  | fastPath (lbl : ScheduleLabel)
  | applyEv (cmds : List Cmd)
deriving DecidableEq

/-- The phases still to be run: each entry is a schedule label together with
the bodies of the `scoped_task` calls its systems will make, in system
registration order. -/
abbrev Phases := List (ScheduleLabel × List (List TAct))

/-- Control state of the driving thread inside `ProcessorApp::run`
(app.rs lines 131-181).  `startPhase` is the head of the `for` loop,
`exec` is `world.run_schedule(schedule)` in progress (the remaining
`scoped_task` calls its systems will perform), `waiting` is the notification
loop with `k` notifications still to be received out of the
`deferred_actions` read at line 144, and `done` is the return. -/
inductive MainCtl where
  | startPhase (phs : Phases)
  | exec (lbl : ScheduleLabel) (toSpawn : List (List TAct)) (phs : Phases)
  | waiting (lbl : ScheduleLabel) (k : Nat) (phs : Phases)
  | done

/-- Global state of a run: driver control, in-flight pool jobs, the next
fresh guard id, `DeferredTask::waiting` (the outstanding counter), the mpsc
channel contents (scope id with each batch), the list of commands applied to
the world so far, and the event trace. -/
structure Config where
  mode : MainCtl
  pool : List Job
  nextId : Nat
  counter : Nat
  channel : List (Nat × Batch)
  world : List Cmd
  trace : List Ev

/-- Scheduler oracle: `main` lets the driving thread take its next step,
`task i` lets pool job `i` take its next step (run its next scope action, or
finish, dropping its guard), and `abort i` drops job `i`'s future early — a
panic unwinding through the body or a cancellation by dropping the returned
`Task` handle; either way the future's locals, the guard included, are
dropped. -/
inductive Choice where
  | main
  | task (i : Nat)
  | abort (i : Nat)

/-- Delivery of one `finished.notify(1)` to the driving thread: only a
listener inside the notification loop (app.rs lines 151-169) consumes it;
with no listener registered the notification is dropped
(`event_listener` buffers nothing for `notify(1)`). -/
def recvNotify : MainCtl → MainCtl
  | .waiting l (k + 1) phs => .waiting l k phs
  | m => m

/-- One atomic step of the system, resolved by the oracle.

Driver steps mirror app.rs lines 131-181: entering a phase runs its
schedule; each `scoped_task` call first runs `DeferredGuard::new`
(`fetch_add(1)`, deferred.rs line 79) and then submits the job to the IO
pool; when the schedule has returned (and the local compute executor is
drained) the driver reads `waiting()` (line 144) — zero skips the whole
waiting/drain block, nonzero waits for that many notifications and then
drains the channel with `try_recv` until empty, appending every received
batch into one queue and applying it (lines 174-178).

Task steps mirror deferred.rs: a body action is a `DeferredScope::send` or a
`DeferredScope::spawn`/`spawn_local`; when the body is exhausted the async
block reaches `drop(guard)` (lines 44 and 61), i.e. `fetch_sub(1)` then
`notify(1)`; an aborted counted task drops its guard the same way while
unwinding.  Uncounted jobs touch no counter on any path. -/
def step (cfg : Config) : Choice → Config
  | .main =>
    match cfg.mode with
    | .startPhase [] => { cfg with mode := .done }
    | .startPhase ((l, ts) :: rest) =>
        { cfg with mode := .exec l ts rest, trace := cfg.trace ++ [.phaseStart l] }
    | .exec l (body :: bs) phs =>
        { cfg with
          mode := .exec l bs phs
          counter := cfg.counter + 1
          pool := cfg.pool ++ [.counted cfg.nextId body]
          nextId := cfg.nextId + 1
          trace := cfg.trace ++ [.incr cfg.nextId, .spawnCounted cfg.nextId] }
    | .exec l [] phs =>
        if cfg.counter = 0 then
          { cfg with mode := .startPhase phs
                     trace := cfg.trace ++ [.fastPath l, .phaseEnd l] }
        else
          { cfg with mode := .waiting l cfg.counter phs }
    | .waiting l 0 phs =>
        let cmds := (cfg.channel.map Prod.snd).flatten
        { cfg with mode := .startPhase phs
                   world := cfg.world ++ cmds
                   channel := []
                   trace := cfg.trace ++ [.applyEv cmds, .phaseEnd l] }
    | .waiting _ (_ + 1) _ => cfg
    | .done => cfg
  | .task i =>
    match cfg.pool.get? i with
    | some (.counted id (.send b :: rem)) =>
        { cfg with pool := cfg.pool.set i (.counted id rem)
                   channel := cfg.channel ++ [(id, b)]
                   trace := cfg.trace ++ [.sendEv true id b] }
    | some (.counted id (.spawnUn body :: rem)) =>
        { cfg with pool := cfg.pool.set i (.counted id rem) ++ [.uncounted id body]
                   trace := cfg.trace ++ [.spawnUncounted id] }
    | some (.counted id []) =>
        { cfg with pool := cfg.pool.eraseIdx i
                   counter := cfg.counter - 1
                   mode := recvNotify cfg.mode
                   trace := cfg.trace ++ [.decr id, .notify id] }
    | some (.uncounted s (.send b :: rem)) =>
        { cfg with pool := cfg.pool.set i (.uncounted s rem)
                   channel := cfg.channel ++ [(s, b)]
                   trace := cfg.trace ++ [.sendEv false s b] }
    | some (.uncounted s (.spawnUn body :: rem)) =>
        { cfg with pool := cfg.pool.set i (.uncounted s rem) ++ [.uncounted s body]
                   trace := cfg.trace ++ [.spawnUncounted s] }
    | some (.uncounted _ []) =>
        { cfg with pool := cfg.pool.eraseIdx i }
    | none => cfg
  | .abort i =>
    match cfg.pool.get? i with
    | some (.counted id _) =>
        { cfg with pool := cfg.pool.eraseIdx i
                   counter := cfg.counter - 1
                   mode := recvNotify cfg.mode
                   trace := cfg.trace ++ [.decr id, .notify id] }
    | some (.uncounted _ _) => { cfg with pool := cfg.pool.eraseIdx i }
    | none => cfg

/-- A whole run under a given oracle. -/
def run (cfg : Config) (chs : List Choice) : Config :=
  chs.foldl step cfg

/-- The state in which `ProcessorApp::run` starts: counter zero
(`DeferredTask::new`, deferred.rs line 25), empty channel (app.rs line 40),
and the five schedules of `init_schedules` ahead, each phase carrying the
`scoped_task` bodies its registered systems will spawn. -/
def run_start (sys : ScheduleLabel → List (List TAct)) : Config :=
  { mode := .startPhase (init_schedules.map fun l => (l, sys l))
    pool := []
    nextId := 0
    counter := 0
    channel := []
    world := []
    trace := [] }

/-! ### Event counting helpers -/

/-- Occurrences of one exact event in a trace. -/
def countEv (e : Ev) : List Ev → Nat
  | [] => 0
  | x :: xs => (if x = e then 1 else 0) + countEv e xs

def isIncr : Ev → Bool | .incr _ => true | _ => false

def isDecr : Ev → Bool | .decr _ => true | _ => false

def isNotify : Ev → Bool | .notify _ => true | _ => false

def isSpawnCounted : Ev → Bool | .spawnCounted _ => true | _ => false

def isSpawn : Ev → Bool
  | .spawnCounted _ => true
  | .spawnUncounted _ => true
  | _ => false

/-- Total `fetch_add` events on the outstanding counter. -/
def incrCount (t : List Ev) : Nat := t.countP isIncr

/-- Total `fetch_sub` events on the outstanding counter. -/
def decrCount (t : List Ev) : Nat := t.countP isDecr

/-- Total `finished.notify(1)` events. -/
def notifyCount (t : List Ev) : Nat := t.countP isNotify

/-- Tasks spawned through `DeferredTask::scoped_task`/`scoped_task_local`. -/
def scopedSpawnCount (t : List Ev) : Nat := t.countP isSpawnCounted

/-- All tasks spawned, the uncounted `DeferredScope::spawn`/`spawn_local`
ones included. -/
def spawnTotal (t : List Ev) : Nat := t.countP isSpawn

/-- The labels of the `phaseStart` events of a trace, in order. -/
def phaseSeq (t : List Ev) : List ScheduleLabel :=
  t.filterMap fun e => match e with | .phaseStart l => some l | _ => none

/-- The labels of the `phaseEnd` events of a trace, in order. -/
def phaseEnds (t : List Ev) : List ScheduleLabel :=
  t.filterMap fun e => match e with | .phaseEnd l => some l | _ => none

/-- A configuration the scheduler can actually reach from some start state
under some interleaving. -/
def Reachable (c : Config) : Prop :=
  ∃ sys chs, c = run (run_start sys) chs

/-! ### Task pool sizing, from `setup_threadpool` (app.rs lines 190-213) -/

/-- `usize::div_ceil` for a positive divisor. -/
def div_ceil (a b : Nat) : Nat := (a + b - 1) / b

/-- `threads.div_ceil(2).saturating_sub(1).max(1)` (app.rs line 193); `Nat`
subtraction is saturating exactly like `saturating_sub`. -/
def compute_thread_count (threads : Nat) : Nat :=
  max (div_ceil threads 2 - 1) 1

/-- `threads.div_ceil(4).min(6)` (app.rs line 194). -/
def io_thread_count (threads : Nat) : Nat :=
  min (div_ceil threads 4) 6

/-- The `(compute, io)` pool sizes `setup_threadpool` builds from the
available hardware parallelism. -/
def setup_threadpool (threads : Nat) : Nat × Nat :=
  (compute_thread_count threads, io_thread_count threads)

/-! ### Deferred task bodies of `ConfigurationProcessor`
(src/webvy_app/src/processor/configuration.rs) -/

/-- How a deferred task body exits: returning normally (whatever value), or
panicking so that the failure unwinds out of the body. -/
inductive Outcome where
  | ok
  | panicked
deriving DecidableEq

/-- Observable behaviour of one run of a task body: how it exited, how many
`error!` records it logged, and how many batches it passed to
`DeferredScope::send`. -/
structure BodyRun where
  outcome : Outcome
  errors_logged : Nat
  sends : Nat
deriving DecidableEq

/-- The task body of `ConfigurationProcessor::init_config`
(configuration.rs lines 78-124), as a function of the result of
`read_to_string(path)`: an `Ok` file builds one `CommandQueue` and sends it
through the scope; an `Err` is caught by the `if let Err(e)` around the
mapped result and logged with `error!("Error with reading: {}", e)`, and
nothing is sent.  Both paths return normally. -/
def init_config_task (read_result : Except String String) : BodyRun :=
  match read_result with
  | .ok _ => { outcome := .ok, errors_logged := 0, sends := 1 }
  | .error _ => { outcome := .ok, errors_logged := 1, sends := 0 }

/-- The task body of `ConfigurationProcessor::init_section_page_types`
(configuration.rs lines 40-59), as a function of the result of
`read_first_level_directory(path)`: an `Ok` listing is folded into one
`CommandQueue` and sent; an `Err` hits the `.unwrap()` on line 44, which
panics — nothing is logged and nothing is sent, and the failure unwinds out
of the body. -/
def init_section_page_types_task
    (read_result : Except String (List String)) : BodyRun :=
  match read_result with
  | .ok _ => { outcome := .ok, errors_logged := 0, sends := 1 }
  | .error _ => { outcome := .panicked, errors_logged := 0, sends := 0 }

/-- `true` when `e` is a `DeferredScope::send` performed by the counted task
body owning scope `id` itself. -/
def isCountedSend (id : Nat) : Ev → Bool
  | .sendEv true s _ => s == id
  | _ => false

/-- Scans a trace: once the guard decrement of task `id` has happened, no
send performed by that task's own body may follow. -/
def noCountedSendAfterDecr (id : Nat) : List Ev → Bool
  | [] => true
  | e :: rest =>
      if e = Ev.decr id then rest.all fun x => ! isCountedSend id x
      else noCountedSendAfterDecr id rest

/-- The schedule labels the driver has not started yet. -/
def pendingLabels : MainCtl → List ScheduleLabel
  | .startPhase phs => phs.map Prod.fst
  | .exec _ _ phs => phs.map Prod.fst
  | .waiting _ _ phs => phs.map Prod.fst
  | .done => []

/-- The schedule label whose phase is currently started but not ended. -/
def currentLabel : MainCtl → List ScheduleLabel
  | .exec l _ _ => [l]
  | .waiting l _ _ => [l]
  | _ => []

/-! ### The run invariant

Everything the claims need about reachable configurations, preserved by
every step of every interleaving.  `P` is the schedule plan (the label list
built by `init_schedules`). -/

structure Inv (P : List ScheduleLabel) (c : Config) : Prop where
  counter_eq : c.counter = (countedIds c.pool).length
  waiting_eq : ∀ l k phs, c.mode = .waiting l k phs → k = c.counter
  start_zero : ∀ phs, c.mode = .startPhase phs → c.counter = 0
  done_zero : c.mode = .done → c.counter = 0
  ids_lt : ∀ id ∈ countedIds c.pool, id < c.nextId
  ids_nodup : (countedIds c.pool).Nodup
  incr_id : ∀ id, countEv (.incr id) c.trace = if id < c.nextId then 1 else 0
  decr_id : ∀ id, countEv (.decr id) c.trace =
      if id < c.nextId ∧ id ∉ countedIds c.pool then 1 else 0
  notify_id : ∀ id, countEv (.notify id) c.trace = countEv (.decr id) c.trace
  incr_total : incrCount c.trace = scopedSpawnCount c.trace
  counter_trace : incrCount c.trace = decrCount c.trace + c.counter
  notify_total : notifyCount c.trace = decrCount c.trace
  plan_seq : phaseSeq c.trace ++ pendingLabels c.mode = P
  plan_end : phaseEnds c.trace ++ currentLabel c.mode ++ pendingLabels c.mode = P
  send_order : ∀ id, noCountedSendAfterDecr id c.trace = true

/-! ### Concrete registrations and interleavings used as test inputs -/

/-- One system in Preload whose `scoped_task` body spawns one nested task
through `DeferredScope::spawn` (deferred.rs line 113) and nothing else. -/
def sysC1 : ScheduleLabel → List (List TAct)
  | .Preload => [[.spawnUn []]]
  | _ => []

/-- Interleaving: start Preload, spawn the counted task, let it spawn its
nested uncounted task and finish, let the nested task finish, then run the
remaining barriers and phases to completion. -/
def chC1 : List Choice :=
  [.main, .main, .task 0, .task 0, .task 0] ++ List.replicate 9 .main ++ [.main]

/-- One system in Preload whose `scoped_task` body sends one batch. -/
def sysC2 : ScheduleLabel → List (List TAct)
  | .Preload => [[.send [1]]]
  | _ => []

/-- One system in Preload whose `scoped_task` body sends one batch. -/
def sysC3 : ScheduleLabel → List (List TAct)
  | .Preload => [[.send [9]]]
  | _ => []

/-- Interleaving reaching the Preload barrier with its counted task finished:
the driver is one step away from draining and applying. -/
def chC3 : List Choice := [.main, .main, .main, .task 0, .task 0]

/-- One system in Preload whose `scoped_task` body sends one batch. -/
def sysC4 : ScheduleLabel → List (List TAct)
  | .Preload => [[.send [42]]]
  | _ => []

/-- Interleaving in which the Preload task sends its batch and finishes on
the IO pool before the driver reads the counter, so the barrier reads zero
and takes the fast path, leaving the batch in the channel. -/
def chC4 : List Choice :=
  [.main, .main, .task 0, .task 0] ++ List.replicate 9 .main ++ [.main]

/-- One system in the final Write phase whose `scoped_task` body sends one
batch. -/
def sysC5 : ScheduleLabel → List (List TAct)
  | .Write => [[.send [3]]]
  | _ => []

/-- Interleaving in which the Write task finishes before the final barrier
reads the counter, so `run` returns with the batch still queued. -/
def chC5 : List Choice :=
  List.replicate 8 .main ++ [.main, .main, .task 0, .task 0, .main, .main]

/-- A pipeline with no deferred work at all. -/
def sysC7 : ScheduleLabel → List (List TAct) := fun _ => []

/-- One system in Preload whose `scoped_task` body does nothing. -/
def sysC8 : ScheduleLabel → List (List TAct)
  | .Preload => [[]]
  | _ => []

/-- One system in Preload whose `scoped_task` body hands a clone of its
scope to a nested `DeferredScope::spawn` task that sends a batch. -/
def sysC9 : ScheduleLabel → List (List TAct)
  | .Preload => [[.spawnUn [.send [7]]]]
  | _ => []

/-- Interleaving: the counted task spawns the nested task and finishes
(guard dropped, counter decremented); only then does the nested task send
through the scope clone. -/
def chC9 : List Choice := [.main, .main, .task 0, .task 0, .task 0]

/-- A pipeline with no deferred work at all. -/
def sysC10 : ScheduleLabel → List (List TAct) := fun _ => []

/-! ### List bookkeeping lemmas -/

theorem countEv_append (e : Ev) (t s : List Ev) :
    countEv e (t ++ s) = countEv e t + countEv e s := by
  induction t with
  | nil => simp [countEv]
  | cons x xs ih => simp [countEv, ih, Nat.add_assoc]

theorem countEv_pos_iff_mem (e : Ev) (t : List Ev) : 0 < countEv e t ↔ e ∈ t := by
  induction t with
  | nil => simp [countEv]
  | cons x xs ih =>
    by_cases hx : x = e
    · subst hx
      simp [countEv]
    · simp [countEv, hx, ih, Ne.symm hx]

theorem get?_decomp {α : Type} (l : List α) (i : Nat) (a : α)
    (h : l.get? i = some a) :
    ∃ l₁ l₂, l = l₁ ++ a :: l₂ ∧ l₁.length = i ∧
      l.eraseIdx i = l₁ ++ l₂ ∧ ∀ b, l.set i b = l₁ ++ b :: l₂ := by
  induction l generalizing i with
  | nil => simp at h
  | cons x xs ih =>
    cases i with
    | zero =>
      simp at h
      subst h
      exact ⟨[], xs, rfl, rfl, rfl, fun _ => rfl⟩
    | succ n =>
      rw [List.get?_cons_succ] at h
      obtain ⟨l₁, l₂, rfl, hlen, he, hs⟩ := ih n h
      refine ⟨x :: l₁, l₂, rfl, by simp [hlen], ?_, fun b => ?_⟩
      · simpa [List.eraseIdx] using he
      · simpa [List.set] using hs b

@[simp] theorem countedIds_nil : countedIds [] = [] := rfl

@[simp] theorem countedIds_cons_counted (id : Nat) (rem : List TAct) (p : List Job) :
    countedIds (Job.counted id rem :: p) = id :: countedIds p := rfl

@[simp] theorem countedIds_cons_uncounted (s : Nat) (rem : List TAct) (p : List Job) :
    countedIds (Job.uncounted s rem :: p) = countedIds p := rfl

@[simp] theorem countedIds_append (p q : List Job) :
    countedIds (p ++ q) = countedIds p ++ countedIds q := by
  simp [countedIds, List.filterMap_append]

@[simp] theorem phaseSeq_append (t s : List Ev) :
    phaseSeq (t ++ s) = phaseSeq t ++ phaseSeq s := by
  simp [phaseSeq, List.filterMap_append]

@[simp] theorem phaseEnds_append (t s : List Ev) :
    phaseEnds (t ++ s) = phaseEnds t ++ phaseEnds s := by
  simp [phaseEnds, List.filterMap_append]

theorem ncsad_append (id : Nat) (t s : List Ev)
    (h1 : noCountedSendAfterDecr id t = true)
    (h2 : noCountedSendAfterDecr id s = true)
    (h3 : Ev.decr id ∈ t → (s.all fun e => ! isCountedSend id e) = true) :
    noCountedSendAfterDecr id (t ++ s) = true := by
  induction t with
  | nil => simpa using h2
  | cons x xs ih =>
    by_cases hx : x = Ev.decr id
    · subst hx
      have h3' := h3 (List.mem_cons_self _ _)
      simp only [noCountedSendAfterDecr, List.cons_append, List.append_eq] at h1 ⊢
      rw [if_pos trivial] at h1 ⊢
      rw [List.all_append, h1, h3']
      rfl
    · simp only [noCountedSendAfterDecr, List.cons_append] at h1 ⊢
      rw [if_neg hx] at h1 ⊢
      exact ih h1 fun hm => h3 (List.mem_cons_of_mem _ hm)

theorem recvNotify_eq_startPhase {m : MainCtl} {phs : Phases}
    (h : recvNotify m = .startPhase phs) : m = .startPhase phs := by
  cases m with
  | waiting l k p => cases k <;> simp [recvNotify] at h
  | _ => simpa [recvNotify] using h

theorem recvNotify_eq_done {m : MainCtl} (h : recvNotify m = .done) : m = .done := by
  cases m with
  | waiting l k p => cases k <;> simp [recvNotify] at h
  | _ => simpa [recvNotify] using h

theorem recvNotify_eq_waiting {m : MainCtl} {l : ScheduleLabel} {k : Nat}
    {phs : Phases} (h : recvNotify m = .waiting l k phs) :
    m = .waiting l (k + 1) phs ∨ (k = 0 ∧ m = .waiting l 0 phs) := by
  cases m with
  | waiting l' k' p =>
    cases k' with
    | zero =>
      simp [recvNotify] at h
      exact Or.inr ⟨h.2.1.symm, by simp [h.1, h.2.2]⟩
    | succ n =>
      simp [recvNotify] at h
      exact Or.inl (by simp [h.1, h.2.1, h.2.2])
  | _ => simp [recvNotify] at h

@[simp] theorem pendingLabels_recvNotify (m : MainCtl) :
    pendingLabels (recvNotify m) = pendingLabels m := by
  cases m with
  | waiting l k p => cases k <;> rfl
  | _ => rfl

@[simp] theorem currentLabel_recvNotify (m : MainCtl) :
    currentLabel (recvNotify m) = currentLabel m := by
  cases m with
  | waiting l k p => cases k <;> rfl
  | _ => rfl

@[simp] theorem countP_singleton (p : Ev → Bool) (x : Ev) :
    List.countP p [x] = if p x then 1 else 0 := by
  simp [List.countP_cons]

theorem ncsad_of_no_decr {id : Nat} {evs : List Ev}
    (h : ∀ e ∈ evs, e ≠ Ev.decr id) : noCountedSendAfterDecr id evs = true := by
  induction evs with
  | nil => rfl
  | cons e rest ih =>
    rw [noCountedSendAfterDecr, if_neg (h e (List.mem_cons_self _ _))]
    exact ih fun x hx => h x (List.mem_cons_of_mem _ hx)

theorem send_order_frame {id : Nat} {t evs : List Ev}
    (h : noCountedSendAfterDecr id t = true)
    (hclean : ∀ e ∈ evs, isCountedSend id e = false ∧ e ≠ Ev.decr id) :
    noCountedSendAfterDecr id (t ++ evs) = true := by
  refine ncsad_append id t evs h (ncsad_of_no_decr fun e he => (hclean e he).2) ?_
  intro _
  rw [List.all_eq_true]
  intro e he
  simp [(hclean e he).1]

theorem ncsad_decr_notify (id₀ id : Nat) :
    noCountedSendAfterDecr id₀ [Ev.decr id, Ev.notify id] = true := by
  by_cases hid : id = id₀
  · subst hid
    simp [noCountedSendAfterDecr, isCountedSend]
  · simp [noCountedSendAfterDecr, isCountedSend, hid]

/-- Once `decr id` is in the trace, guard `id` is gone from the pool. -/
theorem Inv.decr_not_pool {P : List ScheduleLabel} {c : Config} (h : Inv P c)
    {id : Nat} (hd : Ev.decr id ∈ c.trace) : id ∉ countedIds c.pool := by
  have hc := h.decr_id id
  by_cases hcond : id < c.nextId ∧ id ∉ countedIds c.pool
  · exact hcond.2
  · rw [if_neg hcond] at hc
    have := (countEv_pos_iff_mem (Ev.decr id) c.trace).mpr hd
    omega

/-- Dropping the `DeferredGuard` of counted task `id` — the tail of the
async block on normal completion, or the unwind path on panic/cancellation —
preserves the invariant. -/
theorem inv_guard_drop {P : List ScheduleLabel} {c : Config} {i id : Nat}
    {rem : List TAct} (h : Inv P c)
    (hp : c.pool.get? i = some (.counted id rem)) :
    Inv P { c with pool := c.pool.eraseIdx i
                   counter := c.counter - 1
                   mode := recvNotify c.mode
                   trace := c.trace ++ [.decr id, .notify id] } := by
  obtain ⟨A, B, hAB, hlen, hErase, hSet⟩ := get?_decomp _ _ _ hp
  have hid_mem : id ∈ countedIds c.pool := by rw [hAB]; simp
  have hid_lt : id < c.nextId := h.ids_lt id hid_mem
  have hcounter : c.counter = (countedIds A).length + (countedIds B).length + 1 := by
    have hce := h.counter_eq
    rw [hAB] at hce
    simpa using hce
  have hnodup : (countedIds A ++ id :: countedIds B).Nodup := by
    have := h.ids_nodup
    rwa [hAB, countedIds_append, countedIds_cons_counted] at this
  have hid_nAB : id ∉ countedIds A ++ countedIds B := by
    rw [List.nodup_append] at hnodup
    have h1 : id ∉ countedIds A := fun hm => hnodup.2.2 hm (List.mem_cons_self _ _)
    have h2 : id ∉ countedIds B := (List.nodup_cons.mp hnodup.2.1).1
    simp [List.mem_append, h1, h2]
  have hnodupAB : (countedIds A ++ countedIds B).Nodup := by
    rw [List.nodup_append] at hnodup ⊢
    exact ⟨hnodup.1, (List.nodup_cons.mp hnodup.2.1).2,
      fun a ha hb => hnodup.2.2 ha (List.mem_cons_of_mem _ hb)⟩
  refine ⟨?_, ?_, ?_, ?_, ?_, ?_, ?_, ?_, ?_, ?_, ?_, ?_, ?_, ?_, ?_⟩
  · rw [hErase, countedIds_append]
    simp only [List.length_append]
    omega
  · intro l k phs hm
    show k = c.counter - 1
    rcases recvNotify_eq_waiting hm with h1 | ⟨hk, h1⟩
    · have := h.waiting_eq l (k + 1) phs h1
      omega
    · have := h.waiting_eq l 0 phs h1
      omega
  · intro phs hm
    show c.counter - 1 = 0
    have := h.start_zero phs (recvNotify_eq_startPhase hm)
    omega
  · intro hm
    show c.counter - 1 = 0
    have := h.done_zero (recvNotify_eq_done hm)
    omega
  · intro id' hm
    refine h.ids_lt id' ?_
    rw [hErase, countedIds_append] at hm
    rw [hAB, countedIds_append, countedIds_cons_counted]
    rcases List.mem_append.mp hm with hh | hh
    · exact List.mem_append.mpr (Or.inl hh)
    · exact List.mem_append.mpr (Or.inr (List.mem_cons_of_mem _ hh))
  · rw [hErase, countedIds_append]
    exact hnodupAB
  · intro id'
    simp [countEv_append, countEv, h.incr_id id']
  · intro id'
    rw [hErase, countedIds_append]
    by_cases hid : id' = id
    · subst hid
      have hd := h.decr_id id'
      rw [if_neg (by simp [hid_mem])] at hd
      rw [countEv_append, hd]
      have h1 : countEv (Ev.decr id') [Ev.decr id', Ev.notify id'] = 1 := by
        simp [countEv]
      rw [h1, if_pos ⟨hid_lt, hid_nAB⟩]
    · have hd := h.decr_id id'
      have hmem : (id' ∈ countedIds A ++ countedIds B) ↔ id' ∈ countedIds c.pool := by
        rw [hAB, countedIds_append, countedIds_cons_counted]
        simp only [List.mem_append, List.mem_cons]
        tauto
      rw [countEv_append, hd]
      have hz : countEv (Ev.decr id') [Ev.decr id, Ev.notify id] = 0 := by
        simp [countEv, Ne.symm hid]
      rw [hz]
      by_cases hcond : id' < c.nextId ∧ id' ∉ countedIds c.pool
      · rw [if_pos hcond, if_pos ⟨hcond.1, fun hm => hcond.2 (hmem.mp hm)⟩]
      · rw [if_neg hcond, if_neg fun hc2 => hcond ⟨hc2.1, fun hm => hc2.2 (hmem.mpr hm)⟩]
  · intro id'
    rw [countEv_append, countEv_append, h.notify_id id']
    by_cases hid : id' = id <;> simp [countEv, hid]
  · have := h.incr_total
    simp only [incrCount, scopedSpawnCount, List.countP_append] at this ⊢
    have h1 : List.countP isIncr [Ev.decr id, Ev.notify id] = 0 := by
      simp [List.countP_cons, isIncr]
    have h2 : List.countP isSpawnCounted [Ev.decr id, Ev.notify id] = 0 := by
      simp [List.countP_cons, isSpawnCounted]
    rw [h1, h2]
    omega
  · have := h.counter_trace
    simp only [incrCount, decrCount, List.countP_append] at this ⊢
    have h1 : List.countP isIncr [Ev.decr id, Ev.notify id] = 0 := by
      simp [List.countP_cons, isIncr]
    have h2 : List.countP isDecr [Ev.decr id, Ev.notify id] = 1 := by
      simp [List.countP_cons, isDecr]
    rw [h1, h2]
    omega
  · have := h.notify_total
    simp only [notifyCount, decrCount, List.countP_append] at this ⊢
    have h1 : List.countP isNotify [Ev.decr id, Ev.notify id] = 1 := by
      simp [List.countP_cons, isNotify]
    have h2 : List.countP isDecr [Ev.decr id, Ev.notify id] = 1 := by
      simp [List.countP_cons, isDecr]
    rw [h1, h2]
    omega
  · have := h.plan_seq
    simp only [phaseSeq_append, pendingLabels_recvNotify]
    simpa [phaseSeq, List.filterMap_cons] using this
  · have := h.plan_end
    simp only [phaseEnds_append, pendingLabels_recvNotify, currentLabel_recvNotify]
    simpa [phaseEnds, List.filterMap_cons] using this
  · intro id₀
    refine ncsad_append id₀ _ _ (h.send_order id₀) (ncsad_decr_notify id₀ id) ?_
    intro _
    rw [List.all_eq_true]
    intro e he
    rcases List.mem_cons.mp he with rfl | he
    · simp [isCountedSend]
    · rcases List.mem_cons.mp he with rfl | he
      · simp [isCountedSend]
      · cases he

/-- Erasing an uncounted job from the pool leaves `countedIds` unchanged,
and with it every invariant field. -/
theorem inv_uncounted_drop {P : List ScheduleLabel} {c : Config} {i s : Nat}
    {rem : List TAct} (h : Inv P c)
    (hp : c.pool.get? i = some (.uncounted s rem)) :
    Inv P { c with pool := c.pool.eraseIdx i } := by
  obtain ⟨A, B, hAB, hlen, hErase, hSet⟩ := get?_decomp _ _ _ hp
  have hcid : countedIds (c.pool.eraseIdx i) = countedIds c.pool := by
    rw [hErase, hAB]
    simp
  refine ⟨?_, h.waiting_eq, h.start_zero, h.done_zero, ?_, ?_, h.incr_id, ?_,
    h.notify_id, h.incr_total, h.counter_trace, h.notify_total, h.plan_seq,
    h.plan_end, h.send_order⟩
  · rw [hcid]
    exact h.counter_eq
  · rw [hcid]
    exact h.ids_lt
  · rw [hcid]
    exact h.ids_nodup
  · rw [hcid]
    exact h.decr_id

/-- Rewriting the remaining actions of the counted job at index `i` (it just
performed one) leaves `countedIds` unchanged. -/
theorem countedIds_set_counted {p : List Job} {i id : Nat} {rem : List TAct}
    (rem' : List TAct) (hp : p.get? i = some (.counted id rem)) :
    countedIds (p.set i (.counted id rem')) = countedIds p := by
  obtain ⟨A, B, hAB, hlen, hErase, hSet⟩ := get?_decomp _ _ _ hp
  rw [hSet, hAB]
  simp

/-- Same for an uncounted job. -/
theorem countedIds_set_uncounted {p : List Job} {i s : Nat} {rem : List TAct}
    (rem' : List TAct) (hp : p.get? i = some (.uncounted s rem)) :
    countedIds (p.set i (.uncounted s rem')) = countedIds p := by
  obtain ⟨A, B, hAB, hlen, hErase, hSet⟩ := get?_decomp _ _ _ hp
  rw [hSet, hAB]
  simp

theorem countedId_mem {p : List Job} {i id : Nat} {rem : List TAct}
    (hp : p.get? i = some (.counted id rem)) : id ∈ countedIds p := by
  obtain ⟨A, B, hAB, _, _, _⟩ := get?_decomp _ _ _ hp
  rw [hAB]
  simp

/-- `Inv` stated over the components of an explicit configuration. -/
theorem Inv.of_fields {P : List ScheduleLabel} {mo : MainCtl} {po : List Job}
    {ni co : Nat} {chn : List (Nat × Batch)} {wo : List Cmd} {tr : List Ev}
    (h1 : co = (countedIds po).length)
    (h2 : ∀ l k phs, mo = .waiting l k phs → k = co)
    (h3 : ∀ phs, mo = .startPhase phs → co = 0)
    (h4 : mo = .done → co = 0)
    (h5 : ∀ id ∈ countedIds po, id < ni)
    (h6 : (countedIds po).Nodup)
    (h7 : ∀ id, countEv (.incr id) tr = if id < ni then 1 else 0)
    (h8 : ∀ id, countEv (.decr id) tr = if id < ni ∧ id ∉ countedIds po then 1 else 0)
    (h9 : ∀ id, countEv (.notify id) tr = countEv (.decr id) tr)
    (h10 : incrCount tr = scopedSpawnCount tr)
    (h11 : incrCount tr = decrCount tr + co)
    (h12 : notifyCount tr = decrCount tr)
    (h13 : phaseSeq tr ++ pendingLabels mo = P)
    (h14 : phaseEnds tr ++ currentLabel mo ++ pendingLabels mo = P)
    (h15 : ∀ id, noCountedSendAfterDecr id tr = true) :
    Inv P ⟨mo, po, ni, co, chn, wo, tr⟩ :=
  ⟨h1, h2, h3, h4, h5, h6, h7, h8, h9, h10, h11, h12, h13, h14, h15⟩

theorem Inv.counter_eq' {P : List ScheduleLabel} {mo : MainCtl} {po : List Job}
    {ni co : Nat} {chn : List (Nat × Batch)} {wo : List Cmd} {tr : List Ev}
    (h : Inv P ⟨mo, po, ni, co, chn, wo, tr⟩) : co = (countedIds po).length :=
  h.counter_eq

theorem Inv.waiting_eq' {P : List ScheduleLabel} {mo : MainCtl} {po : List Job}
    {ni co : Nat} {chn : List (Nat × Batch)} {wo : List Cmd} {tr : List Ev}
    (h : Inv P ⟨mo, po, ni, co, chn, wo, tr⟩) :
    ∀ l k phs, mo = .waiting l k phs → k = co :=
  h.waiting_eq

theorem Inv.start_zero' {P : List ScheduleLabel} {mo : MainCtl} {po : List Job}
    {ni co : Nat} {chn : List (Nat × Batch)} {wo : List Cmd} {tr : List Ev}
    (h : Inv P ⟨mo, po, ni, co, chn, wo, tr⟩) :
    ∀ phs, mo = .startPhase phs → co = 0 :=
  h.start_zero

theorem Inv.done_zero' {P : List ScheduleLabel} {mo : MainCtl} {po : List Job}
    {ni co : Nat} {chn : List (Nat × Batch)} {wo : List Cmd} {tr : List Ev}
    (h : Inv P ⟨mo, po, ni, co, chn, wo, tr⟩) : mo = .done → co = 0 :=
  h.done_zero

theorem Inv.ids_lt' {P : List ScheduleLabel} {mo : MainCtl} {po : List Job}
    {ni co : Nat} {chn : List (Nat × Batch)} {wo : List Cmd} {tr : List Ev}
    (h : Inv P ⟨mo, po, ni, co, chn, wo, tr⟩) : ∀ id ∈ countedIds po, id < ni :=
  h.ids_lt

theorem Inv.ids_nodup' {P : List ScheduleLabel} {mo : MainCtl} {po : List Job}
    {ni co : Nat} {chn : List (Nat × Batch)} {wo : List Cmd} {tr : List Ev}
    (h : Inv P ⟨mo, po, ni, co, chn, wo, tr⟩) : (countedIds po).Nodup :=
  h.ids_nodup

theorem Inv.incr_id' {P : List ScheduleLabel} {mo : MainCtl} {po : List Job}
    {ni co : Nat} {chn : List (Nat × Batch)} {wo : List Cmd} {tr : List Ev}
    (h : Inv P ⟨mo, po, ni, co, chn, wo, tr⟩) :
    ∀ id, countEv (.incr id) tr = if id < ni then 1 else 0 :=
  h.incr_id

theorem Inv.decr_id' {P : List ScheduleLabel} {mo : MainCtl} {po : List Job}
    {ni co : Nat} {chn : List (Nat × Batch)} {wo : List Cmd} {tr : List Ev}
    (h : Inv P ⟨mo, po, ni, co, chn, wo, tr⟩) :
    ∀ id, countEv (.decr id) tr = if id < ni ∧ id ∉ countedIds po then 1 else 0 :=
  h.decr_id

theorem Inv.notify_id' {P : List ScheduleLabel} {mo : MainCtl} {po : List Job}
    {ni co : Nat} {chn : List (Nat × Batch)} {wo : List Cmd} {tr : List Ev}
    (h : Inv P ⟨mo, po, ni, co, chn, wo, tr⟩) :
    ∀ id, countEv (.notify id) tr = countEv (.decr id) tr :=
  h.notify_id

theorem Inv.incr_total' {P : List ScheduleLabel} {mo : MainCtl} {po : List Job}
    {ni co : Nat} {chn : List (Nat × Batch)} {wo : List Cmd} {tr : List Ev}
    (h : Inv P ⟨mo, po, ni, co, chn, wo, tr⟩) : incrCount tr = scopedSpawnCount tr :=
  h.incr_total

theorem Inv.counter_trace' {P : List ScheduleLabel} {mo : MainCtl} {po : List Job}
    {ni co : Nat} {chn : List (Nat × Batch)} {wo : List Cmd} {tr : List Ev}
    (h : Inv P ⟨mo, po, ni, co, chn, wo, tr⟩) : incrCount tr = decrCount tr + co :=
  h.counter_trace

theorem Inv.notify_total' {P : List ScheduleLabel} {mo : MainCtl} {po : List Job}
    {ni co : Nat} {chn : List (Nat × Batch)} {wo : List Cmd} {tr : List Ev}
    (h : Inv P ⟨mo, po, ni, co, chn, wo, tr⟩) : notifyCount tr = decrCount tr :=
  h.notify_total

theorem Inv.plan_seq' {P : List ScheduleLabel} {mo : MainCtl} {po : List Job}
    {ni co : Nat} {chn : List (Nat × Batch)} {wo : List Cmd} {tr : List Ev}
    (h : Inv P ⟨mo, po, ni, co, chn, wo, tr⟩) :
    phaseSeq tr ++ pendingLabels mo = P :=
  h.plan_seq

theorem Inv.plan_end' {P : List ScheduleLabel} {mo : MainCtl} {po : List Job}
    {ni co : Nat} {chn : List (Nat × Batch)} {wo : List Cmd} {tr : List Ev}
    (h : Inv P ⟨mo, po, ni, co, chn, wo, tr⟩) :
    phaseEnds tr ++ currentLabel mo ++ pendingLabels mo = P :=
  h.plan_end

theorem Inv.send_order' {P : List ScheduleLabel} {mo : MainCtl} {po : List Job}
    {ni co : Nat} {chn : List (Nat × Batch)} {wo : List Cmd} {tr : List Ev}
    (h : Inv P ⟨mo, po, ni, co, chn, wo, tr⟩) :
    ∀ id, noCountedSendAfterDecr id tr = true :=
  h.send_order

theorem Inv.decr_not_pool' {P : List ScheduleLabel} {mo : MainCtl} {po : List Job}
    {ni co : Nat} {chn : List (Nat × Batch)} {wo : List Cmd} {tr : List Ev}
    (h : Inv P ⟨mo, po, ni, co, chn, wo, tr⟩) {id : Nat}
    (hd : Ev.decr id ∈ tr) : id ∉ countedIds po :=
  h.decr_not_pool hd

/-- Every step of every interleaving preserves the run invariant. -/
theorem inv_step {P : List ScheduleLabel} (c : Config) (ch : Choice)
    (h : Inv P c) : Inv P (step c ch) := by
  obtain ⟨mo, po, ni, co, chn, wo, tr⟩ := c
  cases ch with
  | main =>
    cases mo with
    | startPhase phs =>
      cases phs with
      | nil =>
        simp only [step]
        refine Inv.of_fields ?_ ?_ ?_ ?_ ?_ ?_ ?_ ?_ ?_ ?_ ?_ ?_ ?_ ?_ ?_
        · exact h.counter_eq'
        · exact fun l k phs hm => (nomatch hm)
        · exact fun phs hm => (nomatch hm)
        · exact fun _ => h.start_zero' [] rfl
        · exact h.ids_lt'
        · exact h.ids_nodup'
        · exact h.incr_id'
        · exact h.decr_id'
        · exact h.notify_id'
        · exact h.incr_total'
        · exact h.counter_trace'
        · exact h.notify_total'
        · simpa [pendingLabels] using h.plan_seq'
        · simpa [pendingLabels, currentLabel] using h.plan_end'
        · exact h.send_order'
      | cons p rest =>
        obtain ⟨l, ts⟩ := p
        simp only [step]
        refine Inv.of_fields ?_ ?_ ?_ ?_ ?_ ?_ ?_ ?_ ?_ ?_ ?_ ?_ ?_ ?_ ?_
        · exact h.counter_eq'
        · exact fun l' k phs hm => (nomatch hm)
        · exact fun phs hm => (nomatch hm)
        · exact fun hm => (nomatch hm)
        · exact h.ids_lt'
        · exact h.ids_nodup'
        · intro id
          simp [countEv_append, countEv, h.incr_id' id]
        · intro id
          simp [countEv_append, countEv, h.decr_id' id]
        · intro id
          simp [countEv_append, countEv, h.notify_id' id]
        · have := h.incr_total'
          simp only [incrCount, scopedSpawnCount] at this
          simp [incrCount, scopedSpawnCount, List.countP_append, isIncr,
            isSpawnCounted, this]
        · have := h.counter_trace'
          simp only [incrCount, decrCount] at this
          simp [incrCount, decrCount, List.countP_append, isIncr, isDecr, this]
        · have := h.notify_total'
          simp only [notifyCount, decrCount] at this
          simp [notifyCount, decrCount, List.countP_append, isNotify, isDecr, this]
        · simpa [pendingLabels, phaseSeq, List.filterMap_cons, List.append_assoc]
            using h.plan_seq'
        · simpa [pendingLabels, currentLabel, phaseEnds, List.filterMap_cons,
            List.append_assoc] using h.plan_end'
        · intro id
          refine send_order_frame (h.send_order' id) ?_
          intro e he
          simp only [List.mem_singleton] at he
          subst he
          exact ⟨rfl, fun hc => (nomatch hc)⟩
    | exec l ts phs =>
      cases ts with
      | cons body bs =>
        simp only [step]
        refine Inv.of_fields ?_ ?_ ?_ ?_ ?_ ?_ ?_ ?_ ?_ ?_ ?_ ?_ ?_ ?_ ?_
        · simp [h.counter_eq', Nat.add_comm]
        · exact fun l' k phs' hm => (nomatch hm)
        · exact fun phs' hm => (nomatch hm)
        · exact fun hm => (nomatch hm)
        · intro id hm
          simp only [countedIds_append, countedIds_cons_counted, countedIds_nil,
            List.mem_append, List.mem_cons, List.not_mem_nil, or_false] at hm
          rcases hm with hm | hm
          · exact Nat.lt_succ_of_lt (h.ids_lt' id hm)
          · omega
        · simp only [countedIds_append, countedIds_cons_counted, countedIds_nil]
          refine List.Nodup.append h.ids_nodup' (List.nodup_singleton ni) ?_
          intro a ha hb
          rw [List.mem_singleton] at hb
          subst hb
          exact absurd (h.ids_lt' a ha) (lt_irrefl a)
        · intro id
          have hsmall : countEv (Ev.incr id) [Ev.incr ni, Ev.spawnCounted ni] =
              if ni = id then 1 else 0 := by
            simp [countEv]
          rw [countEv_append, h.incr_id' id, hsmall]
          split_ifs <;> omega
        · intro id
          have hsmall : countEv (Ev.decr id) [Ev.incr ni, Ev.spawnCounted ni] = 0 := by
            simp [countEv]
          have hiff : (id < ni + 1 ∧
              id ∉ countedIds (po ++ [Job.counted ni body])) ↔
              (id < ni ∧ id ∉ countedIds po) := by
            simp only [countedIds_append, countedIds_cons_counted, countedIds_nil,
              List.mem_append, List.mem_cons, List.not_mem_nil, or_false]
            constructor
            · rintro ⟨ha, hb⟩
              push_neg at hb
              exact ⟨by omega, hb.1⟩
            · rintro ⟨ha, hb⟩
              refine ⟨by omega, ?_⟩
              rintro (hm | hm)
              · exact hb hm
              · omega
          rw [countEv_append, h.decr_id' id, hsmall]
          simp only [hiff]
          simp
        · intro id
          simp [countEv_append, countEv, h.notify_id' id]
        · have := h.incr_total'
          simp only [incrCount, scopedSpawnCount] at this
          simp only [incrCount, scopedSpawnCount, List.countP_append]
          have ha : List.countP isIncr [Ev.incr ni, Ev.spawnCounted ni] = 1 := by
            simp [List.countP_cons, isIncr]
          have hb : List.countP isSpawnCounted [Ev.incr ni, Ev.spawnCounted ni] = 1 := by
            simp [List.countP_cons, isSpawnCounted]
          rw [ha, hb]
          omega
        · have := h.counter_trace'
          simp only [incrCount, decrCount] at this
          simp only [incrCount, decrCount, List.countP_append]
          have ha : List.countP isIncr [Ev.incr ni, Ev.spawnCounted ni] = 1 := by
            simp [List.countP_cons, isIncr]
          have hb : List.countP isDecr [Ev.incr ni, Ev.spawnCounted ni] = 0 := by
            simp [List.countP_cons, isDecr]
          rw [ha, hb]
          omega
        · have := h.notify_total'
          simp only [notifyCount, decrCount] at this
          simp only [notifyCount, decrCount, List.countP_append]
          have ha : List.countP isNotify [Ev.incr ni, Ev.spawnCounted ni] = 0 := by
            simp [List.countP_cons, isNotify]
          have hb : List.countP isDecr [Ev.incr ni, Ev.spawnCounted ni] = 0 := by
            simp [List.countP_cons, isDecr]
          rw [ha, hb]
          omega
        · simpa [pendingLabels, phaseSeq, List.filterMap_cons] using h.plan_seq'
        · simpa [pendingLabels, currentLabel, phaseEnds, List.filterMap_cons]
            using h.plan_end'
        · intro id
          refine send_order_frame (h.send_order' id) ?_
          intro e he
          rcases List.mem_cons.mp he with rfl | he
          · exact ⟨rfl, fun hc => (nomatch hc)⟩
          · rcases List.mem_cons.mp he with rfl | he
            · exact ⟨rfl, fun hc => (nomatch hc)⟩
            · cases he
      | nil =>
        by_cases hco : co = 0
        · simp only [step, if_pos hco]
          refine Inv.of_fields ?_ ?_ ?_ ?_ ?_ ?_ ?_ ?_ ?_ ?_ ?_ ?_ ?_ ?_ ?_
          · exact h.counter_eq'
          · exact fun l' k phs' hm => (nomatch hm)
          · exact fun _ _ => hco
          · exact fun hm => (nomatch hm)
          · exact h.ids_lt'
          · exact h.ids_nodup'
          · intro id
            simp [countEv_append, countEv, h.incr_id' id]
          · intro id
            simp [countEv_append, countEv, h.decr_id' id]
          · intro id
            simp [countEv_append, countEv, h.notify_id' id]
          · have := h.incr_total'
            simp only [incrCount, scopedSpawnCount] at this
            simp [incrCount, scopedSpawnCount, List.countP_append, isIncr,
              isSpawnCounted, this]
          · have := h.counter_trace'
            simp only [incrCount, decrCount] at this
            simp [incrCount, decrCount, List.countP_append, isIncr, isDecr, this]
          · have := h.notify_total'
            simp only [notifyCount, decrCount] at this
            simp [notifyCount, decrCount, List.countP_append, isNotify, isDecr, this]
          · simpa [pendingLabels, phaseSeq, List.filterMap_cons] using h.plan_seq'
          · simpa [pendingLabels, currentLabel, phaseEnds, List.filterMap_cons,
              List.append_assoc] using h.plan_end'
          · intro id
            refine send_order_frame (h.send_order' id) ?_
            intro e he
            rcases List.mem_cons.mp he with rfl | he
            · exact ⟨rfl, fun hc => (nomatch hc)⟩
            · rcases List.mem_cons.mp he with rfl | he
              · exact ⟨rfl, fun hc => (nomatch hc)⟩
              · cases he
        · simp only [step, if_neg hco]
          refine Inv.of_fields ?_ ?_ ?_ ?_ ?_ ?_ ?_ ?_ ?_ ?_ ?_ ?_ ?_ ?_ ?_
          · exact h.counter_eq'
          · intro l' k' phs' hm
            cases hm
            rfl
          · exact fun phs' hm => (nomatch hm)
          · exact fun hm => (nomatch hm)
          · exact h.ids_lt'
          · exact h.ids_nodup'
          · exact h.incr_id'
          · exact h.decr_id'
          · exact h.notify_id'
          · exact h.incr_total'
          · exact h.counter_trace'
          · exact h.notify_total'
          · simpa [pendingLabels] using h.plan_seq'
          · simpa [pendingLabels, currentLabel] using h.plan_end'
          · exact h.send_order'
    | waiting l k phs =>
      cases k with
      | zero =>
        simp only [step]
        refine Inv.of_fields ?_ ?_ ?_ ?_ ?_ ?_ ?_ ?_ ?_ ?_ ?_ ?_ ?_ ?_ ?_
        · exact h.counter_eq'
        · exact fun l' k' phs' hm => (nomatch hm)
        · exact fun _ _ => (h.waiting_eq' l 0 phs rfl).symm
        · exact fun hm => (nomatch hm)
        · exact h.ids_lt'
        · exact h.ids_nodup'
        · intro id
          simp [countEv_append, countEv, h.incr_id' id]
        · intro id
          simp [countEv_append, countEv, h.decr_id' id]
        · intro id
          simp [countEv_append, countEv, h.notify_id' id]
        · have := h.incr_total'
          simp only [incrCount, scopedSpawnCount] at this
          simp [incrCount, scopedSpawnCount, List.countP_append, isIncr,
            isSpawnCounted, this]
        · have := h.counter_trace'
          simp only [incrCount, decrCount] at this
          simp [incrCount, decrCount, List.countP_append, isIncr, isDecr, this]
        · have := h.notify_total'
          simp only [notifyCount, decrCount] at this
          simp [notifyCount, decrCount, List.countP_append, isNotify, isDecr, this]
        · simpa [pendingLabels, phaseSeq, List.filterMap_cons] using h.plan_seq'
        · simpa [pendingLabels, currentLabel, phaseEnds, List.filterMap_cons,
            List.append_assoc] using h.plan_end'
        · intro id
          refine send_order_frame (h.send_order' id) ?_
          intro e he
          rcases List.mem_cons.mp he with rfl | he
          · exact ⟨rfl, fun hc => (nomatch hc)⟩
          · rcases List.mem_cons.mp he with rfl | he
            · exact ⟨rfl, fun hc => (nomatch hc)⟩
            · cases he
      | succ n => exact h
    | done => exact h
  | task i =>
    rcases hget : po.get? i with _ | job
    · simp only [step, hget]
      exact h
    · cases job with
      | counted id rem =>
        cases rem with
        | nil =>
          simp only [step, hget]
          exact inv_guard_drop h hget
        | cons act rem' =>
          cases act with
          | send b =>
            have hcid := countedIds_set_counted rem' hget
            simp only [step, hget]
            refine Inv.of_fields ?_ ?_ ?_ ?_ ?_ ?_ ?_ ?_ ?_ ?_ ?_ ?_ ?_ ?_ ?_
            · rw [hcid]
              exact h.counter_eq'
            · exact h.waiting_eq'
            · exact h.start_zero'
            · exact h.done_zero'
            · rw [hcid]
              exact h.ids_lt'
            · rw [hcid]
              exact h.ids_nodup'
            · intro id'
              simp [countEv_append, countEv, h.incr_id' id']
            · intro id'
              rw [hcid, countEv_append, h.decr_id' id']
              simp [countEv]
            · intro id'
              simp [countEv_append, countEv, h.notify_id' id']
            · have := h.incr_total'
              simp only [incrCount, scopedSpawnCount] at this
              simp [incrCount, scopedSpawnCount, List.countP_append, isIncr,
                isSpawnCounted, this]
            · have := h.counter_trace'
              simp only [incrCount, decrCount] at this
              simp [incrCount, decrCount, List.countP_append, isIncr, isDecr, this]
            · have := h.notify_total'
              simp only [notifyCount, decrCount] at this
              simp [notifyCount, decrCount, List.countP_append, isNotify, isDecr,
                this]
            · simpa [phaseSeq, List.filterMap_cons] using h.plan_seq'
            · simpa [phaseEnds, List.filterMap_cons] using h.plan_end'
            · intro id₀
              refine ncsad_append id₀ _ _ (h.send_order' id₀) ?_ ?_
              · refine ncsad_of_no_decr ?_
                intro e he
                simp only [List.mem_singleton] at he
                subst he
                exact fun hc => (nomatch hc)
              · intro hdec
                rw [List.all_eq_true]
                intro e he
                simp only [List.mem_singleton] at he
                subst he
                have hnp := h.decr_not_pool' hdec
                have hne : id ≠ id₀ := fun hEq => hnp (hEq ▸ countedId_mem hget)
                simp [isCountedSend, hne]
          | spawnUn bd =>
            have hcid : countedIds (po.set i (.counted id rem') ++
                [Job.uncounted id bd]) = countedIds po := by
              rw [countedIds_append, countedIds_set_counted rem' hget]
              simp
            simp only [step, hget]
            refine Inv.of_fields ?_ ?_ ?_ ?_ ?_ ?_ ?_ ?_ ?_ ?_ ?_ ?_ ?_ ?_ ?_
            · rw [hcid]
              exact h.counter_eq'
            · exact h.waiting_eq'
            · exact h.start_zero'
            · exact h.done_zero'
            · rw [hcid]
              exact h.ids_lt'
            · rw [hcid]
              exact h.ids_nodup'
            · intro id'
              simp [countEv_append, countEv, h.incr_id' id']
            · intro id'
              rw [hcid, countEv_append, h.decr_id' id']
              simp [countEv]
            · intro id'
              simp [countEv_append, countEv, h.notify_id' id']
            · have := h.incr_total'
              simp only [incrCount, scopedSpawnCount] at this
              simp [incrCount, scopedSpawnCount, List.countP_append, isIncr,
                isSpawnCounted, this]
            · have := h.counter_trace'
              simp only [incrCount, decrCount] at this
              simp [incrCount, decrCount, List.countP_append, isIncr, isDecr, this]
            · have := h.notify_total'
              simp only [notifyCount, decrCount] at this
              simp [notifyCount, decrCount, List.countP_append, isNotify, isDecr,
                this]
            · simpa [phaseSeq, List.filterMap_cons] using h.plan_seq'
            · simpa [phaseEnds, List.filterMap_cons] using h.plan_end'
            · intro id₀
              refine send_order_frame (h.send_order' id₀) ?_
              intro e he
              simp only [List.mem_singleton] at he
              subst he
              exact ⟨rfl, fun hc => (nomatch hc)⟩
      | uncounted s rem =>
        cases rem with
        | nil =>
          simp only [step, hget]
          exact inv_uncounted_drop h hget
        | cons act rem' =>
          cases act with
          | send b =>
            have hcid := countedIds_set_uncounted rem' hget
            simp only [step, hget]
            refine Inv.of_fields ?_ ?_ ?_ ?_ ?_ ?_ ?_ ?_ ?_ ?_ ?_ ?_ ?_ ?_ ?_
            · rw [hcid]
              exact h.counter_eq'
            · exact h.waiting_eq'
            · exact h.start_zero'
            · exact h.done_zero'
            · rw [hcid]
              exact h.ids_lt'
            · rw [hcid]
              exact h.ids_nodup'
            · intro id'
              simp [countEv_append, countEv, h.incr_id' id']
            · intro id'
              rw [hcid, countEv_append, h.decr_id' id']
              simp [countEv]
            · intro id'
              simp [countEv_append, countEv, h.notify_id' id']
            · have := h.incr_total'
              simp only [incrCount, scopedSpawnCount] at this
              simp [incrCount, scopedSpawnCount, List.countP_append, isIncr,
                isSpawnCounted, this]
            · have := h.counter_trace'
              simp only [incrCount, decrCount] at this
              simp [incrCount, decrCount, List.countP_append, isIncr, isDecr, this]
            · have := h.notify_total'
              simp only [notifyCount, decrCount] at this
              simp [notifyCount, decrCount, List.countP_append, isNotify, isDecr,
                this]
            · simpa [phaseSeq, List.filterMap_cons] using h.plan_seq'
            · simpa [phaseEnds, List.filterMap_cons] using h.plan_end'
            · intro id₀
              refine send_order_frame (h.send_order' id₀) ?_
              intro e he
              simp only [List.mem_singleton] at he
              subst he
              exact ⟨rfl, fun hc => (nomatch hc)⟩
          | spawnUn bd =>
            have hcid : countedIds (po.set i (.uncounted s rem') ++
                [Job.uncounted s bd]) = countedIds po := by
              rw [countedIds_append, countedIds_set_uncounted rem' hget]
              simp
            simp only [step, hget]
            refine Inv.of_fields ?_ ?_ ?_ ?_ ?_ ?_ ?_ ?_ ?_ ?_ ?_ ?_ ?_ ?_ ?_
            · rw [hcid]
              exact h.counter_eq'
            · exact h.waiting_eq'
            · exact h.start_zero'
            · exact h.done_zero'
            · rw [hcid]
              exact h.ids_lt'
            · rw [hcid]
              exact h.ids_nodup'
            · intro id'
              simp [countEv_append, countEv, h.incr_id' id']
            · intro id'
              rw [hcid, countEv_append, h.decr_id' id']
              simp [countEv]
            · intro id'
              simp [countEv_append, countEv, h.notify_id' id']
            · have := h.incr_total'
              simp only [incrCount, scopedSpawnCount] at this
              simp [incrCount, scopedSpawnCount, List.countP_append, isIncr,
                isSpawnCounted, this]
            · have := h.counter_trace'
              simp only [incrCount, decrCount] at this
              simp [incrCount, decrCount, List.countP_append, isIncr, isDecr, this]
            · have := h.notify_total'
              simp only [notifyCount, decrCount] at this
              simp [notifyCount, decrCount, List.countP_append, isNotify, isDecr,
                this]
            · simpa [phaseSeq, List.filterMap_cons] using h.plan_seq'
            · simpa [phaseEnds, List.filterMap_cons] using h.plan_end'
            · intro id₀
              refine send_order_frame (h.send_order' id₀) ?_
              intro e he
              simp only [List.mem_singleton] at he
              subst he
              exact ⟨rfl, fun hc => (nomatch hc)⟩
  | abort i =>
    rcases hget : po.get? i with _ | job
    · simp only [step, hget]
      exact h
    · cases job with
      | counted id rem =>
        simp only [step, hget]
        exact inv_guard_drop h hget
      | uncounted s rem =>
        simp only [step, hget]
        exact inv_uncounted_drop h hget
/-- The invariant is preserved by whole runs. -/
theorem inv_run {P : List ScheduleLabel} (c : Config) (chs : List Choice)
    (h : Inv P c) : Inv P (run c chs) := by
  induction chs generalizing c with
  | nil => exact h
  | cons ch rest ih => exact ih _ (inv_step c ch h)

/-- The starting configuration of `ProcessorApp::run` satisfies the
invariant with the `init_schedules` plan. -/
theorem inv_start (sys : ScheduleLabel → List (List TAct)) :
    Inv init_schedules (run_start sys) := by
  refine Inv.of_fields rfl ?_ ?_ ?_ ?_ ?_ ?_ ?_ ?_ rfl rfl rfl ?_ ?_ ?_
  · exact fun l k phs hm => (nomatch hm)
  · exact fun _ _ => rfl
  · exact fun hm => (nomatch hm)
  · intro id hm
    cases hm
  · exact List.nodup_nil
  · intro id
    simp [countEv, Nat.not_lt_zero]
  · intro id
    simp [countEv, Nat.not_lt_zero]
  · intro id
    rfl
  · rfl
  · rfl
  · intro id
    rfl

/-- Every reachable configuration satisfies the invariant. -/
theorem inv_reachable {c : Config} (hc : Reachable c) : Inv init_schedules c := by
  obtain ⟨sys, chs, rfl⟩ := hc
  exact inv_run _ _ (inv_start sys)

theorem append_eq_take {α : Type} {a b P : List α} (h : a ++ b = P) :
    a = P.take a.length := by
  rw [← h, List.take_left]

/-! ### Per-step effect lemmas -/

/-- A `scoped_task` call (`DeferredTask::scoped_task`/`scoped_task_local`,
deferred.rs lines 33-65): one `fetch_add(1)` at spawn time, one new counted
pool job, nothing else. -/
theorem step_spawn_effect (c : Config) (l : ScheduleLabel) (body : List TAct)
    (bs : List (List TAct)) (phs : Phases)
    (hm : c.mode = .exec l (body :: bs) phs) :
    (step c .main).counter = c.counter + 1 ∧
    (step c .main).pool = c.pool ++ [.counted c.nextId body] ∧
    (step c .main).trace = c.trace ++ [.incr c.nextId, .spawnCounted c.nextId] := by
  obtain ⟨mo, po, ni, co, chn, wo, tr⟩ := c
  dsimp only at hm
  subst hm
  exact ⟨rfl, rfl, rfl⟩

/-- A body action (`DeferredScope::send` or `DeferredScope::spawn`): the
outstanding counter and its event counts are untouched — the task body
contains no completion call. -/
theorem step_body_effect (c : Config) (i id : Nat) (act : TAct) (rem : List TAct)
    (hp : c.pool.get? i = some (.counted id (act :: rem))) :
    (step c (.task i)).counter = c.counter ∧
    incrCount (step c (.task i)).trace = incrCount c.trace ∧
    decrCount (step c (.task i)).trace = decrCount c.trace ∧
    notifyCount (step c (.task i)).trace = notifyCount c.trace := by
  obtain ⟨mo, po, ni, co, chn, wo, tr⟩ := c
  dsimp only at hp
  cases act with
  | send b =>
    simp only [step, hp]
    simp [incrCount, decrCount, notifyCount, List.countP_append,
      isIncr, isDecr, isNotify]
  | spawnUn bd =>
    simp only [step, hp]
    simp [incrCount, decrCount, notifyCount, List.countP_append,
      isIncr, isDecr, isNotify]

/-- Normal completion of a counted task: the async block reaches
`drop(guard)` (deferred.rs lines 44/61), producing exactly one `fetch_sub(1)`
and one `notify(1)`. -/
theorem step_finish_effect (c : Config) (i id : Nat)
    (hp : c.pool.get? i = some (.counted id [])) :
    (step c (.task i)).counter = c.counter - 1 ∧
    (step c (.task i)).pool = c.pool.eraseIdx i ∧
    (step c (.task i)).trace = c.trace ++ [.decr id, .notify id] := by
  obtain ⟨mo, po, ni, co, chn, wo, tr⟩ := c
  dsimp only at hp
  simp only [step, hp]
  simp

/-- Panic inside the body or cancellation by dropping the `Task` handle:
unwinding drops the future's locals, the `DeferredGuard` included, with the
same single decrement-and-notify effect. -/
theorem step_abort_effect (c : Config) (i id : Nat) (rem : List TAct)
    (hp : c.pool.get? i = some (.counted id rem)) :
    (step c (.abort i)).counter = c.counter - 1 ∧
    (step c (.abort i)).pool = c.pool.eraseIdx i ∧
    (step c (.abort i)).trace = c.trace ++ [.decr id, .notify id] := by
  obtain ⟨mo, po, ni, co, chn, wo, tr⟩ := c
  dsimp only at hp
  simp only [step, hp]
  simp

/-- The world changes only at a drain step: `deferred_queue.apply` runs only
inside the `if deferred_actions > 0` block after the notification loop
(app.rs lines 148-179). -/
theorem world_unchanged_cases (c : Config) (ch : Choice) :
    (step c ch).world = c.world ∨
    ∃ l phs, ch = .main ∧ c.mode = .waiting l 0 phs ∧
      (step c ch).world = c.world ++ (c.channel.map Prod.snd).flatten ∧
      (step c ch).channel = [] ∧ (step c ch).mode = .startPhase phs ∧
      (step c ch).trace = c.trace ++
        [.applyEv ((c.channel.map Prod.snd).flatten), .phaseEnd l] := by
  obtain ⟨mo, po, ni, co, chn, wo, tr⟩ := c
  cases ch with
  | main =>
    cases mo with
    | startPhase phs =>
      cases phs with
      | nil => exact Or.inl rfl
      | cons p rest =>
        obtain ⟨l, ts⟩ := p
        exact Or.inl rfl
    | exec l ts phs =>
      cases ts with
      | cons body bs => exact Or.inl rfl
      | nil =>
        by_cases hco : co = 0
        · simp only [step, if_pos hco]
          exact Or.inl trivial
        · simp only [step, if_neg hco]
          exact Or.inl trivial
    | waiting l k phs =>
      cases k with
      | zero => exact Or.inr ⟨l, phs, rfl, rfl, rfl, rfl, rfl, rfl⟩
      | succ n => exact Or.inl rfl
    | done => exact Or.inl rfl
  | task i =>
    rcases hget : po.get? i with _ | job
    · simp only [step, hget]
      exact Or.inl trivial
    · cases job with
      | counted id rem =>
        cases rem with
        | nil =>
          simp only [step, hget]
          exact Or.inl trivial
        | cons act rem' =>
          cases act <;> simp only [step, hget] <;> exact Or.inl trivial
      | uncounted s rem =>
        cases rem with
        | nil =>
          simp only [step, hget]
          exact Or.inl trivial
        | cons act rem' =>
          cases act <;> simp only [step, hget] <;> exact Or.inl trivial
  | abort i =>
    rcases hget : po.get? i with _ | job
    · simp only [step, hget]
      exact Or.inl trivial
    · cases job <;> simp only [step, hget] <;> exact Or.inl trivial

/-! ### Claim theorems -/

/-- Claim C1, counterexample.  The claim says every task spawned through a
Deferred Scope's `spawn`/`spawn_local` is counted in the same Outstanding
Counter, so N total spawns give N increments and N decrements.  In this run
two tasks are spawned in total (one `scoped_task`, one nested
`DeferredScope::spawn`), the run completes all phases, yet only one
increment and one decrement ever happen: `DeferredScope::spawn`
(deferred.rs lines 113-118) creates no `DeferredGuard` and never touches the
counter. -/
theorem C1_nested_spawn_uncounted_cex :
    (run (run_start sysC1) chC1).mode = .done ∧
    spawnTotal (run (run_start sysC1) chC1).trace = 2 ∧
    incrCount (run (run_start sysC1) chC1).trace = 1 ∧
    decrCount (run (run_start sysC1) chC1).trace = 1 :=
  ⟨rfl, by decide, by decide, by decide⟩

/-- Claim C1, amended.  Only `DeferredTask::scoped_task`/`scoped_task_local`
spawns are counted: in every run, increments equal `scoped_task` spawns
(nested `DeferredScope::spawn`s contribute none), notifications equal
decrements, decrements never exceed increments, and whenever the driver sits
at a phase boundary (a barrier has completed) decrements equal increments —
exact accounting for the counted tasks even when some were aborted. -/
theorem C1_accounting_amended (sys : ScheduleLabel → List (List TAct))
    (chs : List Choice) :
    incrCount (run (run_start sys) chs).trace =
      scopedSpawnCount (run (run_start sys) chs).trace ∧
    notifyCount (run (run_start sys) chs).trace =
      decrCount (run (run_start sys) chs).trace ∧
    decrCount (run (run_start sys) chs).trace +
      (run (run_start sys) chs).counter =
      incrCount (run (run_start sys) chs).trace ∧
    (((∃ phs, (run (run_start sys) chs).mode = .startPhase phs) ∨
        (run (run_start sys) chs).mode = .done) →
      decrCount (run (run_start sys) chs).trace =
        incrCount (run (run_start sys) chs).trace) := by
  have h := inv_run _ chs (inv_start sys)
  refine ⟨h.incr_total, h.notify_total, h.counter_trace.symm, ?_⟩
  rintro (⟨phs, hm⟩ | hm)
  · have h0 := h.start_zero phs hm
    have hct := h.counter_trace
    omega
  · have h0 := h.done_zero hm
    have hct := h.counter_trace
    omega

/-- Witness for the amended C1 at a finished concrete run. -/
theorem C1_accounting_amended_witness :
    incrCount (run (run_start sysC1) chC1).trace =
      scopedSpawnCount (run (run_start sysC1) chC1).trace ∧
    decrCount (run (run_start sysC1) chC1).trace =
      incrCount (run (run_start sysC1) chC1).trace :=
  ⟨(C1_accounting_amended sysC1 chC1).1,
    (C1_accounting_amended sysC1 chC1).2.2.2 (Or.inr rfl)⟩

/-- Claim C2.  For every `scoped_task`/`scoped_task_local` call the counter
is incremented exactly once at spawn time (`DeferredGuard::new` before the
pool submission); body actions never touch the counter (no explicit
completion call exists); the guard's drop — on normal completion (c), and on
panic or cancellation alike (d) — performs exactly one decrement together
with one notification; and per guard id every run contains at most one
increment and at most one decrement, with notifications matching decrements
one-for-one. -/
theorem C2_guard_exact_accounting :
    (∀ c l body bs phs, c.mode = .exec l (body :: bs) phs →
      (step c .main).counter = c.counter + 1 ∧
      (step c .main).trace = c.trace ++ [.incr c.nextId, .spawnCounted c.nextId]) ∧
    (∀ c i id act rem, c.pool.get? i = some (.counted id (act :: rem)) →
      (step c (.task i)).counter = c.counter ∧
      incrCount (step c (.task i)).trace = incrCount c.trace ∧
      decrCount (step c (.task i)).trace = decrCount c.trace ∧
      notifyCount (step c (.task i)).trace = notifyCount c.trace) ∧
    (∀ c i id, c.pool.get? i = some (.counted id []) →
      (step c (.task i)).counter = c.counter - 1 ∧
      (step c (.task i)).trace = c.trace ++ [.decr id, .notify id]) ∧
    (∀ c i id rem, c.pool.get? i = some (.counted id rem) →
      (step c (.abort i)).counter = c.counter - 1 ∧
      (step c (.abort i)).trace = c.trace ++ [.decr id, .notify id]) ∧
    (∀ sys chs id,
      countEv (.incr id) (run (run_start sys) chs).trace ≤ 1 ∧
      countEv (.decr id) (run (run_start sys) chs).trace ≤ 1 ∧
      countEv (.notify id) (run (run_start sys) chs).trace =
        countEv (.decr id) (run (run_start sys) chs).trace) := by
  refine ⟨?_, ?_, ?_, ?_, ?_⟩
  · intro c l body bs phs hm
    obtain ⟨h1, _, h3⟩ := step_spawn_effect c l body bs phs hm
    exact ⟨h1, h3⟩
  · intro c i id act rem hp
    exact step_body_effect c i id act rem hp
  · intro c i id hp
    obtain ⟨h1, _, h3⟩ := step_finish_effect c i id hp
    exact ⟨h1, h3⟩
  · intro c i id rem hp
    obtain ⟨h1, _, h3⟩ := step_abort_effect c i id rem hp
    exact ⟨h1, h3⟩
  · intro sys chs id
    have h := inv_run _ chs (inv_start sys)
    refine ⟨?_, ?_, h.notify_id id⟩
    · rw [h.incr_id id]
      split_ifs <;> omega
    · rw [h.decr_id id]
      split_ifs <;> omega

/-- Witness for C2 at concrete configurations: a real spawn, a body step, a
normal completion, a cancellation, and a per-id bound. -/
theorem C2_guard_exact_accounting_witness :
    (step (run (run_start sysC2) [Choice.main]) .main).counter =
      (run (run_start sysC2) [Choice.main]).counter + 1 ∧
    (step (run (run_start sysC2) [Choice.main, Choice.main]) (.task 0)).counter =
      (run (run_start sysC2) [Choice.main, Choice.main]).counter ∧
    (step (run (run_start sysC2) [Choice.main, Choice.main, Choice.task 0])
        (.task 0)).counter =
      (run (run_start sysC2) [Choice.main, Choice.main, Choice.task 0]).counter - 1 ∧
    (step (run (run_start sysC2) [Choice.main, Choice.main]) (.abort 0)).counter =
      (run (run_start sysC2) [Choice.main, Choice.main]).counter - 1 ∧
    countEv (.incr 0) (run (run_start sysC2) [Choice.main, Choice.main]).trace ≤ 1 :=
  ⟨(C2_guard_exact_accounting.1 (run (run_start sysC2) [Choice.main]) .Preload
      [.send [1]] [] _ rfl).1,
    (C2_guard_exact_accounting.2.1 (run (run_start sysC2) [Choice.main, Choice.main])
      0 0 (.send [1]) [] rfl).1,
    (C2_guard_exact_accounting.2.2.1
      (run (run_start sysC2) [Choice.main, Choice.main, Choice.task 0]) 0 0 rfl).1,
    (C2_guard_exact_accounting.2.2.2.1
      (run (run_start sysC2) [Choice.main, Choice.main]) 0 0 [.send [1]] rfl).1,
    (C2_guard_exact_accounting.2.2.2.2 sysC2 [Choice.main, Choice.main] 0).1⟩

/-- Claim C3.  Barrier exclusivity: whenever a step changes the world (a
Command is applied), that step is the driver's drain at a barrier whose
notification loop has completed — the phase's schedule has returned (the
mode is `waiting`, which is only entered after `run_schedule`), the
Outstanding Counter is zero, no counted task is in flight — and the drain
applies the whole channel in receipt order, empties it, and moves to
`startPhase`, i.e. strictly before the next phase's schedule runs. -/
theorem C3_barrier_exclusivity (c : Config) (hc : Reachable c) (ch : Choice)
    (hw : (step c ch).world ≠ c.world) :
    ∃ l phs, ch = .main ∧ c.mode = .waiting l 0 phs ∧ c.counter = 0 ∧
      countedIds c.pool = [] ∧
      (step c ch).world = c.world ++ (c.channel.map Prod.snd).flatten ∧
      (step c ch).channel = [] ∧ (step c ch).mode = .startPhase phs ∧
      (step c ch).trace = c.trace ++
        [.applyEv ((c.channel.map Prod.snd).flatten), .phaseEnd l] := by
  rcases world_unchanged_cases c ch with h | ⟨l, phs, h1, h2, h3, h4, h5, h6⟩
  · exact absurd h hw
  · have hinv := inv_reachable hc
    have hco : c.counter = 0 := (hinv.waiting_eq l 0 phs h2).symm
    have hpool : countedIds c.pool = [] := by
      have hce := hinv.counter_eq
      rw [hco] at hce
      exact List.length_eq_zero.mp hce.symm
    exact ⟨l, phs, h1, h2, hco, hpool, h3, h4, h5, h6⟩

/-- Witness for C3: a reachable configuration one step before a drain. -/
theorem C3_barrier_exclusivity_witness :
    (step (run (run_start sysC3) chC3) Choice.main).world ≠
      (run (run_start sysC3) chC3).world ∧
    (run (run_start sysC3) chC3).counter = 0 ∧
    countedIds (run (run_start sysC3) chC3).pool = [] := by
  have h := C3_barrier_exclusivity (run (run_start sysC3) chC3)
    ⟨sysC3, chC3, rfl⟩ .main (by decide)
  obtain ⟨l, phs, _, _, hco, hpool, _, _, _, _⟩ := h
  exact ⟨by decide, hco, hpool⟩

/-- Claim C4, code bug, evaluated at the failing input.  One counted Preload
task sends its batch and finishes on the IO pool before the driver reads the
counter (app.rs line 144); the read returns zero, the whole
waiting-and-drain block is skipped, and `run` completes all five phases with
the sent batch still sitting unapplied in the channel: the mutation is lost
even though the task sent it before the phase's barrier. -/
theorem C4_lost_mutation_at_fast_path :
    (run (run_start sysC4) chC4).mode = .done ∧
    Ev.sendEv true 0 [42] ∈ (run (run_start sysC4) chC4).trace ∧
    (run (run_start sysC4) chC4).world = [] ∧
    (run (run_start sysC4) chC4).channel = [(0, [42])] :=
  ⟨rfl, by decide, by decide, by decide⟩

/-- Claim C5, counterexample.  The claim's parenthetical says `run` returns
only after all outstanding deferred tasks are awaited *and their commands
applied*.  In this run the Write-phase task sends its batch and finishes
before the final barrier reads the counter; the barrier fast-paths and `run`
returns (`mode = done`) with the sent command never applied to the world. -/
theorem C5_write_command_unapplied_cex :
    (run (run_start sysC5) chC5).mode = .done ∧
    Ev.sendEv true 0 [3] ∈ (run (run_start sysC5) chC5).trace ∧
    (run (run_start sysC5) chC5).world = [] ∧
    (run (run_start sysC5) chC5).channel = [(0, [3])] :=
  ⟨rfl, by decide, by decide, by decide⟩

/-- Claim C5, amended.  `init_schedules` registers exactly Preload, Load,
Process, PostProcess, Write in that order; in every run the phases started
form a prefix of that order (each phase at most once, in registration
order); and when `run` has returned, every phase was started and ended
exactly once in registration order and the Outstanding Counter is zero (all
counted tasks were awaited) — though commands sent by tasks that finished
before their barrier's counter read may remain queued, per the fast-path
frame effect. -/
theorem C5_phase_order_amended (sys : ScheduleLabel → List (List TAct))
    (chs : List Choice) :
    init_schedules = [.Preload, .Load, .Process, .PostProcess, .Write] ∧
    (∃ k, phaseSeq (run (run_start sys) chs).trace = init_schedules.take k) ∧
    ((run (run_start sys) chs).mode = .done →
      phaseSeq (run (run_start sys) chs).trace = init_schedules ∧
      phaseEnds (run (run_start sys) chs).trace = init_schedules ∧
      (run (run_start sys) chs).counter = 0) := by
  have h := inv_run _ chs (inv_start sys)
  refine ⟨rfl, ⟨_, append_eq_take h.plan_seq⟩, ?_⟩
  intro hdone
  have h1 := h.plan_seq
  have h2 := h.plan_end
  rw [hdone] at h1 h2
  simp only [pendingLabels, currentLabel, List.append_nil] at h1 h2
  exact ⟨h1, h2, h.done_zero hdone⟩

/-- Witness for the amended C5 at a finished concrete run. -/
theorem C5_phase_order_amended_witness :
    (run (run_start sysC5) chC5).mode = .done ∧
    phaseSeq (run (run_start sysC5) chC5).trace = init_schedules ∧
    phaseEnds (run (run_start sysC5) chC5).trace = init_schedules :=
  ⟨rfl, ((C5_phase_order_amended sysC5 chC5).2.2 rfl).1,
    ((C5_phase_order_amended sysC5 chC5).2.2 rfl).2.1⟩

/-- Claim C6.  `setup_threadpool` (app.rs lines 190-213) sizes the compute
pool as `max(1, ceil(T/2) - 1)` and the IO pool as `min(6, ceil(T/4))` for
every hardware parallelism `T ≥ 1`, with the claimed concrete values at
T = 1, 8 and 100. -/
theorem C6_pool_sizing (t : Nat) (h : 1 ≤ t) :
    compute_thread_count t = max 1 (div_ceil t 2 - 1) ∧
    io_thread_count t = min 6 (div_ceil t 4) ∧
    setup_threadpool 1 = (1, 1) ∧
    setup_threadpool 8 = (3, 2) ∧
    setup_threadpool 100 = (49, 6) :=
  ⟨Nat.max_comm _ _, Nat.min_comm _ _, by decide, by decide, by decide⟩

/-- Witness for C6 at T = 8. -/
theorem C6_pool_sizing_witness :
    1 ≤ 8 ∧ compute_thread_count 8 = max 1 (div_ceil 8 2 - 1) :=
  ⟨by decide, (C6_pool_sizing 8 (by decide)).1⟩

/-- Claim C7.  Idle fast path: if the counter reads zero once the phase's
schedule has returned (mode `exec l [] phs` with counter 0), the driver's
next step advances straight to the next phase — world, channel and pool
untouched, only the fast-path marker in the trace — and in particular the
driver never enters the `waiting` notification loop, so no blocking wait and
no listen/timeout iteration happens. -/
theorem C7_idle_fast_path (c : Config) (l : ScheduleLabel) (phs : Phases)
    (hm : c.mode = .exec l [] phs) (hc : c.counter = 0) :
    (step c .main).mode = .startPhase phs ∧
    (step c .main).world = c.world ∧
    (step c .main).channel = c.channel ∧
    (step c .main).pool = c.pool ∧
    (step c .main).trace = c.trace ++ [.fastPath l, .phaseEnd l] ∧
    ∀ l' k phs', (step c .main).mode ≠ .waiting l' k phs' := by
  obtain ⟨mo, po, ni, co, chn, wo, tr⟩ := c
  dsimp only at hm hc
  subst hm
  subst hc
  exact ⟨rfl, rfl, rfl, rfl, rfl, fun l' k phs' hx => (nomatch hx)⟩

/-- Witness for C7: the Preload barrier of a pipeline with no deferred
work. -/
theorem C7_idle_fast_path_witness :
    (step (run (run_start sysC7) [Choice.main]) Choice.main).mode =
      .startPhase [(.Load, []), (.Process, []), (.PostProcess, []), (.Write, [])] ∧
    (step (run (run_start sysC7) [Choice.main]) Choice.main).world =
      (run (run_start sysC7) [Choice.main]).world :=
  ⟨(C7_idle_fast_path (run (run_start sysC7) [Choice.main]) .Preload
      [(.Load, []), (.Process, []), (.PostProcess, []), (.Write, [])] rfl rfl).1,
    (C7_idle_fast_path (run (run_start sysC7) [Choice.main]) .Preload
      [(.Load, []), (.Process, []), (.PostProcess, []), (.Write, [])] rfl rfl).2.1⟩

/-- Claim C8, counterexample.  The claim says every background task's I/O
failure is caught at the task boundary and logged.  The task body of
`ConfigurationProcessor::init_section_page_types` calls `.unwrap()` on the
directory-read result (configuration.rs line 44): on an I/O error it
panics — nothing is caught, nothing is logged. -/
theorem C8_io_failure_panics_cex :
    (init_section_page_types_task (Except.error "unreadable directory")).outcome =
      Outcome.panicked ∧
    (init_section_page_types_task
      (Except.error "unreadable directory")).errors_logged = 0 :=
  ⟨rfl, rfl⟩

/-- Claim C8, amended.  `init_config` catches its read failure, logs exactly
one error and sends nothing (the mutation is simply absent), returning
normally; `init_section_page_types` instead panics on an I/O failure,
unlogged, also sending nothing; and on either exit path — normal return or
panic/abort — the guard still releases: exactly one decrement and one
notification, so the pipeline is not blocked or aborted. -/
theorem C8_io_failure_amended :
    (∀ e, init_config_task (Except.error e) =
      { outcome := .ok, errors_logged := 1, sends := 0 }) ∧
    (∀ s, init_config_task (Except.ok s) =
      { outcome := .ok, errors_logged := 0, sends := 1 }) ∧
    (∀ e, init_section_page_types_task (Except.error e) =
      { outcome := .panicked, errors_logged := 0, sends := 0 }) ∧
    (∀ c i id, c.pool.get? i = some (.counted id []) →
      (step c (.task i)).counter = c.counter - 1 ∧
      (step c (.task i)).trace = c.trace ++ [.decr id, .notify id]) ∧
    (∀ c i id rem, c.pool.get? i = some (.counted id rem) →
      (step c (.abort i)).counter = c.counter - 1 ∧
      (step c (.abort i)).trace = c.trace ++ [.decr id, .notify id]) := by
  refine ⟨fun e => rfl, fun s => rfl, fun e => rfl, ?_, ?_⟩
  · intro c i id hp
    obtain ⟨h1, _, h3⟩ := step_finish_effect c i id hp
    exact ⟨h1, h3⟩
  · intro c i id rem hp
    obtain ⟨h1, _, h3⟩ := step_abort_effect c i id rem hp
    exact ⟨h1, h3⟩

/-- Witness for the amended C8: concrete failure inputs and a concrete guard
release on both exit paths. -/
theorem C8_io_failure_amended_witness :
    init_config_task (Except.error "missing file") =
      { outcome := .ok, errors_logged := 1, sends := 0 } ∧
    (step (run (run_start sysC8) [Choice.main, Choice.main]) (.task 0)).counter =
      (run (run_start sysC8) [Choice.main, Choice.main]).counter - 1 ∧
    (step (run (run_start sysC8) [Choice.main, Choice.main]) (.abort 0)).counter =
      (run (run_start sysC8) [Choice.main, Choice.main]).counter - 1 :=
  ⟨C8_io_failure_amended.1 "missing file",
    (C8_io_failure_amended.2.2.2.1
      (run (run_start sysC8) [Choice.main, Choice.main]) 0 0 rfl).1,
    (C8_io_failure_amended.2.2.2.2
      (run (run_start sysC8) [Choice.main, Choice.main]) 0 0 [] rfl).1⟩

/-- Claim C9, counterexample.  The claim says the Deferred Scope never
outlives the guard: no enqueue through the scope after the task's counter
decrement.  Here the counted task hands a scope clone to a nested
`DeferredScope::spawn` task and finishes; the decrement (`decr 0`) lands in
the trace strictly before the nested task's enqueue through the very same
scope (`sendEv false 0 [7]`). -/
theorem C9_scope_outlives_guard_cex :
    (run (run_start sysC9) chC9).trace =
      [.phaseStart .Preload, .incr 0, .spawnCounted 0, .spawnUncounted 0] ++
        Ev.decr 0 :: [Ev.notify 0, Ev.sendEv false 0 [7]] ∧
    Ev.sendEv false 0 [7] ∈ [Ev.notify 0, Ev.sendEv false 0 [7]] :=
  ⟨by decide, by decide⟩

/-- Claim C9, amended.  What the code does guarantee: the guard is dropped
only after the task body returns, so no send performed by the counted task's
own body ever appears after that task's decrement in any run's trace; sends
after the decrement can only come from scope clones held by nested uncounted
tasks. -/
theorem C9_no_body_send_after_decr_amended
    (sys : ScheduleLabel → List (List TAct)) (chs : List Choice) (id : Nat) :
    noCountedSendAfterDecr id (run (run_start sys) chs).trace = true :=
  (inv_run _ chs (inv_start sys)).send_order id

/-- Claim C10.  The fast-path frame effect: a barrier that reads the counter
as zero performs no drain — world, channel and pool are left untouched (any
batches already in the channel stay queued); a later barrier that does drain
applies the entire channel, stale batches included, and empties it; and the
world changes at no step other than such a drain, so with no later drain the
batches are never applied. -/
theorem C10_fast_path_frame :
    (∀ c l phs, c.mode = .exec l [] phs → c.counter = 0 →
      (step c .main).world = c.world ∧ (step c .main).channel = c.channel ∧
      (step c .main).pool = c.pool ∧
      (step c .main).trace = c.trace ++ [.fastPath l, .phaseEnd l]) ∧
    (∀ c l phs, c.mode = .waiting l 0 phs →
      (step c .main).world = c.world ++ (c.channel.map Prod.snd).flatten ∧
      (step c .main).channel = []) ∧
    (∀ c ch, (step c ch).world = c.world ∨
      ∃ l phs, c.mode = .waiting l 0 phs ∧ ch = .main) := by
  refine ⟨?_, ?_, ?_⟩
  · intro c l phs hm hc
    obtain ⟨mo, po, ni, co, chn, wo, tr⟩ := c
    dsimp only at hm hc
    subst hm
    subst hc
    exact ⟨rfl, rfl, rfl, rfl⟩
  · intro c l phs hm
    obtain ⟨mo, po, ni, co, chn, wo, tr⟩ := c
    dsimp only at hm
    subst hm
    exact ⟨rfl, rfl⟩
  · intro c ch
    rcases world_unchanged_cases c ch with h | ⟨l, phs, h1, h2, _⟩
    · exact Or.inl h
    · exact Or.inr ⟨l, phs, h2, h1⟩

/-- Witness for C10: a fast-path barrier leaves the world unchanged, and a
draining barrier empties a nonempty channel. -/
theorem C10_fast_path_frame_witness :
    (step (run (run_start sysC10) [Choice.main]) Choice.main).world =
      (run (run_start sysC10) [Choice.main]).world ∧
    (step (Config.mk (.waiting .Preload 0 []) [] 0 0 [(0, [5])] [] [])
        Choice.main).channel = [] :=
  ⟨(C10_fast_path_frame.1 (run (run_start sysC10) [Choice.main]) .Preload
      [(.Load, []), (.Process, []), (.PostProcess, []), (.Write, [])] rfl rfl).1,
    (C10_fast_path_frame.2.1
      (Config.mk (.waiting .Preload 0 []) [] 0 0 [(0, [5])] [] []) .Preload []
      rfl).2⟩

end Webvy
